import Mathlib

/-!
# Verification of the KernelSU userspace CLI and its boot-image patch engine

This development embeds, in Lean 4, the data model and operations of the
`ksud` userspace companion: the boot image patch engine
(Unpacker / Patcher / Repacker / Deployer) and the CLI dispatcher of
`src/drivers/staging/kernelsu/userspace/ksud/src/cli.rs`.

Bytes are modelled as `Nat` values; a buffer is a `List Nat`.  A byte is
valid when it is `< 256`.  Little-endian 32-bit fields are read and written
explicitly.
-/

namespace Ksud



/-- Error kinds of the patch pipeline, as enumerated by the specification
(section 7): every error is fatal to the current invocation. -/
inductive PatchError where
  | sourceNotFound
  | ambiguousTarget
  | invalidFormat
  | unsupportedCompression
  | corruptRamdisk
  | noPatchSpecified
  | kernelReadError
  | noKernelSlot
  | moduleReadError
  | initEntryMissing
  | serializationOverflow
  | flashPermission
  | flashIncomplete
  deriving DecidableEq, Repr

/-- Whether every value of a buffer is a valid byte. -/
def bytesValid (bs : List Nat) : Bool := bs.all (fun b => b < 256)

/-- Read a little-endian 32-bit value from exactly four bytes. -/
def readLe32 (b0 b1 b2 b3 : Nat) : Nat :=
  b0 + 256 * b1 + 65536 * b2 + 16777216 * b3

/-- Write a value as four little-endian bytes (the value is taken mod 2^32). -/
def writeLe32 (n : Nat) : List Nat :=
  [n % 256, n / 256 % 256, n / 65536 % 256, n / 16777216 % 256]

/-!
## Compression codecs

Modelled from the spec: the ramdisk payload's codec is detected by sniffing
its leading bytes against known codec signatures (uncompressed cpio magic,
gzip, lz4 frame, zstd magic); the same codec is reused verbatim on repack.
The concrete compressed representation is modelled as the codec signature
followed by the raw data (identity for uncompressed cpio, whose raw data
already begins with the cpio entry magic).
-/

/-- The supported compression codecs of the ramdisk payload. -/
inductive Codec where
  | cpio
  | gzip
  | lz4
  | zstd
  deriving DecidableEq, Repr

/-- The cpio newc entry magic "070701", which also opens an uncompressed
cpio payload. -/
def cpioMagic : List Nat := [0x30, 0x37, 0x30, 0x37, 0x30, 0x31]

/-- The leading-byte signature of each codec. -/
def Codec.signature : Codec → List Nat
  | .cpio => cpioMagic
  | .gzip => [0x1f, 0x8b]
  | .lz4 => [0x04, 0x22, 0x4d, 0x18]
  | .zstd => [0x28, 0xb5, 0x2f, 0xfd]

/-- Sniff the codec of a compressed payload from its leading bytes.
Returns `none` when no known signature matches. -/
def sniffCodec (payload : List Nat) : Option Codec :=
  if Codec.signature .cpio <+: payload then some .cpio
  else if Codec.signature .gzip <+: payload then some .gzip
  else if Codec.signature .lz4 <+: payload then some .lz4
  else if Codec.signature .zstd <+: payload then some .zstd
  else none

/-- Decompress a payload already known to use `c`: strip the codec
signature (identity for uncompressed cpio). -/
def decompress (c : Codec) (payload : List Nat) : List Nat :=
  match c with
  | .cpio => payload
  | _ => payload.drop c.signature.length

/-- Compress raw data with codec `c`: prepend the codec signature
(identity for uncompressed cpio). -/
def compress (c : Codec) (raw : List Nat) : List Nat :=
  match c with
  | .cpio => raw
  | _ => c.signature ++ raw

/-!
## Ramdisk archive entries

Modelled from the spec: the decompressed ramdisk payload is a sequence of
named archive entries (path, mode, raw content) whose order and metadata
are preserved verbatim.  Each entry is laid out as the cpio entry magic,
three little-endian 32-bit fields (name length, mode, data length), then
the name bytes and the content bytes.
-/

/-- One named entry of the decompressed ramdisk archive. -/
structure RamdiskEntry where
  name : List Nat
  mode : Nat
  data : List Nat
  deriving DecidableEq, Repr

/-- Metadata of an entry fits the 32-bit fields of its serialized header. -/
def entryBounded (e : RamdiskEntry) : Prop :=
  e.mode < 4294967296 ∧ e.name.length < 4294967296 ∧ e.data.length < 4294967296

instance (e : RamdiskEntry) : Decidable (entryBounded e) := by
  unfold entryBounded; infer_instance

/-- Serialize one archive entry. -/
def serializeEntry (e : RamdiskEntry) : List Nat :=
  cpioMagic ++ writeLe32 e.name.length ++ writeLe32 e.mode ++
    writeLe32 e.data.length ++ e.name ++ e.data

/-- Serialize an entry sequence back into a raw archive payload. -/
def serializeEntries : List RamdiskEntry → List Nat
  | [] => []
  | e :: es => serializeEntry e ++ serializeEntries es

/-- Parse one archive entry off the front of a payload; `none` on a
malformed or truncated entry. -/
def parseEntry (p : List Nat) : Option (RamdiskEntry × List Nat) :=
  match p with
  | m0 :: m1 :: m2 :: m3 :: m4 :: m5 :: a0 :: a1 :: a2 :: a3 ::
      b0 :: b1 :: b2 :: b3 :: c0 :: c1 :: c2 :: c3 :: rest =>
    if [m0, m1, m2, m3, m4, m5] = cpioMagic
        ∧ a0 < 256 ∧ a1 < 256 ∧ a2 < 256 ∧ a3 < 256
        ∧ b0 < 256 ∧ b1 < 256 ∧ b2 < 256 ∧ b3 < 256
        ∧ c0 < 256 ∧ c1 < 256 ∧ c2 < 256 ∧ c3 < 256 then
      let nameLen := readLe32 a0 a1 a2 a3
      let mode := readLe32 b0 b1 b2 b3
      let dataLen := readLe32 c0 c1 c2 c3
      if nameLen + dataLen ≤ rest.length then
        some (⟨rest.take nameLen, mode, (rest.drop nameLen).take dataLen⟩,
              rest.drop (nameLen + dataLen))
      else none
    else none
  | _ => none

/-- Parse a payload as a sequence of entries, consuming it entirely;
the fuel argument bounds recursion depth. -/
def parseEntriesAux : Nat → List Nat → Option (List RamdiskEntry)
  | _, [] => some []
  | 0, _ :: _ => none
  | fuel + 1, p =>
    match parseEntry p with
    | none => none
    | some (e, rest) => (parseEntriesAux fuel rest).map (fun es => e :: es)

/-- Parse a raw decompressed ramdisk payload into its entry sequence. -/
def parseEntries (p : List Nat) : Option (List RamdiskEntry) :=
  parseEntriesAux p.length p

/-!
## Boot image model, Unpacker and Repacker

Modelled from the spec: the Unpacker validates a magic signature at a fixed
offset (`InvalidFormat` if absent), reads the header's little-endian size
fields, slices the kernel blob and the compressed ramdisk payload, sniffs
the ramdisk codec (`UnsupportedCompression` if none matches) and parses the
decompressed archive (`CorruptRamdisk` on a malformed entry).  The Repacker
serializes back through the same layout, recompressing with the originally
detected codec and recomputing every size field, and fails with
`SerializationOverflow` when a component no longer fits its 32-bit size
field.
-/

/-- The boot image magic "ANDROID!" at offset 0. -/
def bootMagic : List Nat := [0x41, 0x4e, 0x44, 0x52, 0x4f, 0x49, 0x44, 0x21]

/-- Read a little-endian 32-bit field from the front of a buffer,
zero-extending when fewer than four bytes remain. -/
def le32of (l : List Nat) : Nat :=
  match l with
  | b0 :: b1 :: b2 :: b3 :: _ => readLe32 b0 b1 b2 b3
  | [b0, b1, b2] => b0 + 256 * b1 + 65536 * b2
  | [b0, b1] => b0 + 256 * b1
  | [b0] => b0
  | [] => 0

/-- In-memory representation of a parsed boot image. -/
structure BootImage where
  headerVersion : Nat
  kernel : List Nat
  ramdisk : List RamdiskEntry
  codec : Codec
  deriving DecidableEq, Repr

/-- The compressed ramdisk payload sliced out of a raw image. -/
def ramdiskPayload (img : List Nat) : List Nat :=
  ((img.drop 20).drop (le32of (img.drop 12))).take (le32of (img.drop 16))

/-- The Unpacker: parse a raw boot image into the image model. -/
def unpack (img : List Nat) : Except PatchError BootImage :=
  if bootMagic <+: img then
    let comp := ramdiskPayload img
    match sniffCodec comp with
    | none => .error .unsupportedCompression
    | some c =>
      match parseEntries (decompress c comp) with
      | none => .error .corruptRamdisk
      | some es =>
        .ok ⟨le32of (img.drop 8), (img.drop 20).take (le32of (img.drop 12)), es, c⟩
  else .error .invalidFormat

/-- The Repacker: serialize the image model back into a raw boot image,
recomputing the size fields. -/
def repack (m : BootImage) : Except PatchError (List Nat) :=
  let comp := compress m.codec (serializeEntries m.ramdisk)
  if m.kernel.length < 4294967296 ∧ comp.length < 4294967296 then
    .ok (bootMagic ++ writeLe32 m.headerVersion ++ writeLe32 m.kernel.length ++
      writeLe32 comp.length ++ m.kernel ++ comp)
  else .error .serializationOverflow

/-- Structural validity of a raw boot image buffer: every value is a byte
and the buffer is exactly the 20-byte header plus the kernel and ramdisk
extents declared by the header's size fields. -/
def validImage (img : List Nat) : Prop :=
  bytesValid img = true ∧
  img.length = 20 + le32of (img.drop 12) + le32of (img.drop 16)

instance (img : List Nat) : Decidable (validImage img) := by
  unfold validImage; infer_instance

/-!
## Patcher

Modelled from the spec: two mutually exclusive strategies operating purely
on the in-memory image model.  Kernel replacement swaps the kernel blob
wholesale and leaves the ramdisk untouched (`NoKernelSlot` when the layout
is the init_boot layout, modelled as header version 1, which has no kernel
component).  LKM injection embeds the module file as a new entry at a
well-known install path, replaces the init entry's content with the
caller-supplied bootstrap bytes, and preserves the original init content
under a renamed entry (`InitEntryMissing` when no entry matches the init
path).
-/

/-- Kernel replacement: swap the kernel blob wholesale; the ramdisk is left
untouched. -/
def patchKernel (m : BootImage) (newKernel : List Nat) : Except PatchError BootImage :=
  if m.headerVersion = 1 then .error .noKernelSlot
  else .ok { m with kernel := newKernel }

/-- The well-known path of the init binary inside the ramdisk ("init"). -/
def initName : List Nat := [0x69, 0x6e, 0x69, 0x74]

/-- The renamed entry under which the original init content is preserved
("init.real"). -/
def initBackupName : List Nat := initName ++ [0x2e, 0x72, 0x65, 0x61, 0x6c]

/-- The well-known install path of the injected LKM module file
("kernelsu.ko"). -/
def lkmModuleName : List Nat := [0x6b, 0x65, 0x72, 0x6e, 0x65, 0x6c, 0x73, 0x75, 0x2e, 0x6b, 0x6f]

/-- The file mode of the injected module entry. -/
def lkmModuleMode : Nat := 33188

/-- Replace the content of the init entry with the bootstrap bytes; leave
every other entry untouched. -/
def replaceInitData (initBytes : List Nat) (e : RamdiskEntry) : RamdiskEntry :=
  if e.name = initName then { e with data := initBytes } else e

/-- LKM injection on the image model. -/
def patchLkm (m : BootImage) (moduleBytes initBytes : List Nat) :
    Except PatchError BootImage :=
  match m.ramdisk.find? (fun e => decide (e.name = initName)) with
  | none => .error .initEntryMissing
  | some origInit =>
    .ok { m with ramdisk :=
      m.ramdisk.map (replaceInitData initBytes) ++
        [{ name := initBackupName, mode := origInit.mode, data := origInit.data },
         { name := lkmModuleName, mode := lkmModuleMode, data := moduleBytes }] }

/-!
## Deployer

Modelled from the spec: the partition device is simulated as a fixed-size
sink.  Flashing writes bytes one at a time until the image is exhausted or
the sink is full, in a single pass, then verifies that the number of bytes
written equals the image length, failing with `FlashIncomplete` on any
short write.  There is no retry: the sink's final content is the result of
exactly one write pass.
-/

/-- A simulated partition device: a fixed capacity and the bytes written so
far. -/
structure Sink where
  capacity : Nat
  written : List Nat
  deriving DecidableEq, Repr

/-- Stream bytes onto the sink one at a time, stopping when the sink is
full; returns the updated sink and the number of bytes written. -/
def writeBytes : List Nat → Sink → Sink × Nat
  | [], s => (s, 0)
  | b :: rest, s =>
    if s.written.length < s.capacity then
      let r := writeBytes rest ⟨s.capacity, s.written ++ [b]⟩
      (r.1, r.2 + 1)
    else (s, 0)

/-- Flash an image onto a sink: one write pass, then verify the byte count
against the image length; `FlashIncomplete` on any short write, with no
retry. -/
def flash (img : List Nat) (s : Sink) : Sink × Except PatchError Unit :=
  let r := writeBytes img s
  if r.2 = img.length then (r.1, .ok ()) else (r.1, .error .flashIncomplete)

/-!
## CLI dispatcher

Embedded from `src/drivers/staging/kernelsu/userspace/ksud/src/cli.rs`.
The subcommand tree mirrors the `Commands`, `ModuleCmd`, `DebugCmd`,
`SepolicyCmd` and `ProfileCmd` enums.  The external operations the
dispatcher calls (`event::*`, `module::*`, `crate::ksu::*`, ...) are
modelled as an environment of result-returning functions; `run` records
the operations it invokes, in order, so that "never invoked" and "invoked
with exactly these arguments" are expressible.
-/

/-- Result type of an external operation: success or an error message. -/
abbrev KResult := Except String Unit

instance {ε α : Type} [DecidableEq ε] [DecidableEq α] : DecidableEq (Except ε α) := by
  intro a b
  cases a <;> cases b
  case error.error x y =>
    exact if h : x = y then .isTrue (by rw [h]) else
      .isFalse (fun hc => by injection hc; contradiction)
  case ok.ok x y =>
    exact if h : x = y then .isTrue (by rw [h]) else
      .isFalse (fun hc => by injection hc; contradiction)
  case error.ok x y => exact .isFalse (fun hc => Except.noConfusion hc)
  case ok.error x y => exact .isFalse (fun hc => Except.noConfusion hc)

/-- The `Module` subcommands of cli.rs. -/
inductive ModuleCmd where
  | install (zip : String)
  | uninstall (id : String)
  | enable (id : String)
  | disable (id : String)
  | list
  | shrink
  | serve (id : String) (port : Nat)
  deriving DecidableEq, Repr

/-- The `Debug` subcommands of cli.rs. -/
inductive DebugCmd where
  | setManager (apk : String)
  | getSign (apk : String)
  | su
  | version
  | mount
  | xcp (src dst : String)
  | punchHole (file : String)
  | test
  deriving DecidableEq, Repr

/-- The `Sepolicy` subcommands of cli.rs. -/
inductive SepolicyCmd where
  | patch (sepolicy : String)
  | apply (file : String)
  | check (sepolicy : String)
  deriving DecidableEq, Repr

/-- The `Profile` subcommands of cli.rs. -/
inductive ProfileCmd where
  | getSepolicy (package : String)
  | setSepolicy (package policy : String)
  | getTemplate (id : String)
  | setTemplate (id template : String)
  | deleteTemplate (id : String)
  | listTemplates
  deriving DecidableEq, Repr

/-- The top-level `Commands` enum of cli.rs. -/
inductive Commands where
  | module (c : ModuleCmd)
  | postFsData
  | services
  | bootCompleted
  | install
  | sepolicy (c : SepolicyCmd)
  | profile (c : ProfileCmd)
  | bootPatch (boot kernel lkmModule init : Option String) (ota flash : Bool)
      (out magiskboot : Option String)
  | debug (c : DebugCmd)
  deriving DecidableEq, Repr

/-- Observable operations the dispatcher can invoke, with their arguments. -/
inductive Op where
  | rootShell
  | postFsData
  | services
  | bootCompleted
  | installEvent
  | sepolicyPatch (s : String)
  | sepolicyApply (f : String)
  | sepolicyCheck (s : String)
  | profileGetSepolicy (package : String)
  | profileSetSepolicy (package policy : String)
  | profileGetTemplate (id : String)
  | profileSetTemplate (id template : String)
  | profileDeleteTemplate (id : String)
  | profileListTemplates
  | switchMntNs (pid : Nat)
  | unshareMntNs
  | moduleInstall (zip : String)
  | moduleUninstall (id : String)
  | moduleEnable (id : String)
  | moduleDisable (id : String)
  | moduleList
  | moduleShrink
  | moduleServe (id : String) (port : Nat)
  | debugSetManager (apk : String)
  | debugGetSign (apk : String)
  | debugVersion
  | debugSu
  | debugMount
  | debugXcp (src dst : String)
  | debugPunchHole (file : String)
  | invokePatch (boot kernel lkmModule init : Option String) (ota flash : Bool)
      (out magiskboot : Option String)
  | logError (msg : String)
  deriving DecidableEq, Repr

/-- The external operations cli.rs delegates to, as an environment. -/
structure Env where
  rootShell : KResult
  onPostDataFs : KResult
  onServices : KResult
  onBootCompleted : KResult
  installEvent : KResult
  sepolicyLivePatch : String → KResult
  sepolicyApplyFile : String → KResult
  sepolicyCheckRule : String → KResult
  profileGetSepolicy : String → KResult
  profileSetSepolicy : String → String → KResult
  profileGetTemplate : String → KResult
  profileSetTemplate : String → String → KResult
  profileDeleteTemplate : String → KResult
  profileListTemplates : KResult
  switchMntNs : Nat → KResult
  unshareMntNs : KResult
  installModule : String → KResult
  uninstallModule : String → KResult
  enableModule : String → KResult
  disableModule : String → KResult
  listModules : KResult
  shrinkImages : KResult
  serveModule : String → Nat → KResult
  setManager : String → KResult
  getApkSignature : String → Except String (Nat × String)
  grantRoot : KResult
  mountSystemlessly : KResult
  copySparseFile : String → String → KResult
  punchHole : String → KResult
  bootPatch : Option String → Option String → Option String → Option String →
    Bool → Bool → Option String → Option String → KResult

/-- Outcome of an invocation: a returned `Result`, a panic (`todo!()`), or
a clap usage error that exits before dispatch. -/
inductive CliOutcome where
  | result (r : KResult)
  | panic
  | usageError
  deriving DecidableEq, Repr

/-- Dispatch of one `Module` subcommand (after the namespace switches). -/
def runModule (env : Env) : ModuleCmd → Op × KResult
  | .install zip => (.moduleInstall zip, env.installModule zip)
  | .uninstall id => (.moduleUninstall id, env.uninstallModule id)
  | .enable id => (.moduleEnable id, env.enableModule id)
  | .disable id => (.moduleDisable id, env.disableModule id)
  | .list => (.moduleList, env.listModules)
  | .shrink => (.moduleShrink, env.shrinkImages)
  | .serve id port => (.moduleServe id port, env.serveModule id port)

/-- The `match cli.command` dispatch of cli.rs `run`, with the recorded
operation trace.  The `Module` arm mirrors the namespace switching on
linux/android targets: `switch_mnt_ns(1)?` then `unshare_mnt_ns()?`, each
propagating its error before the module operation runs.  `Debug::Test`
is `todo!()`, which panics. -/
def dispatch (env : Env) : Commands → List Op × CliOutcome
  | .postFsData => ([.postFsData], .result env.onPostDataFs)
  | .bootCompleted => ([.bootCompleted], .result env.onBootCompleted)
  | .module c =>
    match env.switchMntNs 1 with
    | .error e => ([.switchMntNs 1], .result (.error e))
    | .ok _ =>
      match env.unshareMntNs with
      | .error e => ([.switchMntNs 1, .unshareMntNs], .result (.error e))
      | .ok _ =>
        let r := runModule env c
        ([.switchMntNs 1, .unshareMntNs, r.1], .result r.2)
  | .install => ([.installEvent], .result env.installEvent)
  | .sepolicy c =>
    match c with
    | .patch s => ([.sepolicyPatch s], .result (env.sepolicyLivePatch s))
    | .apply f => ([.sepolicyApply f], .result (env.sepolicyApplyFile f))
    | .check s => ([.sepolicyCheck s], .result (env.sepolicyCheckRule s))
  | .services => ([.services], .result env.onServices)
  | .profile c =>
    match c with
    | .getSepolicy p => ([.profileGetSepolicy p], .result (env.profileGetSepolicy p))
    | .setSepolicy p pol => ([.profileSetSepolicy p pol], .result (env.profileSetSepolicy p pol))
    | .getTemplate id => ([.profileGetTemplate id], .result (env.profileGetTemplate id))
    | .setTemplate id t => ([.profileSetTemplate id t], .result (env.profileSetTemplate id t))
    | .deleteTemplate id => ([.profileDeleteTemplate id], .result (env.profileDeleteTemplate id))
    | .listTemplates => ([.profileListTemplates], .result env.profileListTemplates)
  | .debug c =>
    match c with
    | .setManager apk => ([.debugSetManager apk], .result (env.setManager apk))
    | .getSign apk =>
      ([.debugGetSign apk], .result (match env.getApkSignature apk with
        | .error e => .error e
        | .ok _ => .ok ()))
    | .version => ([.debugVersion], .result (.ok ()))
    | .su => ([.debugSu], .result env.grantRoot)
    | .mount => ([.debugMount], .result env.mountSystemlessly)
    | .xcp s d =>
      ([.debugXcp s d], .result (match env.copySparseFile s d with
        | .error e => .error e
        | .ok _ => .ok ()))
    | .punchHole f => ([.debugPunchHole f], .result (env.punchHole f))
    | .test => ([], .panic)
  | .bootPatch b k mdl i ota fl out mb =>
    ([.invokePatch b k mdl i ota fl out mb], .result (env.bootPatch b k mdl i ota fl out mb))

/-- The argument constraints declared on `Commands::BootPatch` in cli.rs:
`module` carries `requires("init")` and `init` carries `requires("module")`,
so clap accepts the plan only when both are present or both absent. -/
def argsValid : Commands → Bool
  | .bootPatch _ _ lkmModule init _ _ _ _ => lkmModule.isSome == init.isSome
  | _ => true

/-- The cli.rs `run` entry point: if `argv[0]` is `su` or `/system/bin/su`
it dispatches straight to the root shell before any argument parsing;
otherwise the parsed command (clap validation included) is dispatched and,
when the dispatched operation returns an error, the error is logged and the
erroneous result returned to the caller. -/
def run (env : Env) (argv0 : String) (parsed : Except Unit Commands) :
    List Op × CliOutcome :=
  if argv0 = "su" ∨ argv0 = "/system/bin/su" then
    ([.rootShell], .result env.rootShell)
  else
    match parsed with
    | .error _ => ([], .usageError)
    | .ok cmd =>
      if argsValid cmd then
        match dispatch env cmd with
        | (tr, .result (.error e)) => (tr ++ [.logError e], .result (.error e))
        | other => other
      else ([], .usageError)

/-!
## Sample data

A synthetic minimal image: empty kernel, one-entry uncompressed ramdisk
containing only an `init` entry (the spec's scenario input), together with
its patched variants.
-/

/-- The single init entry of the sample image. -/
def sampleEntry : RamdiskEntry := { name := initName, mode := 420, data := [] }

/-- The sample ramdisk. -/
def sampleRamdisk : List RamdiskEntry := [sampleEntry]

/-- The sample unpatched model. -/
def sampleModel : BootImage :=
  { headerVersion := 0, kernel := [], ramdisk := sampleRamdisk, codec := .cpio }

/-- The sample unpatched image bytes. -/
def sampleImage : List Nat :=
  bootMagic ++ writeLe32 0 ++ writeLe32 0 ++
    writeLe32 (serializeEntries sampleRamdisk).length ++ serializeEntries sampleRamdisk

/-- A ten-byte replacement kernel blob. -/
def sampleKernel : List Nat := [1, 2, 3, 4, 5, 6, 7, 8, 9, 10]

/-- The sample model after kernel replacement. -/
def sampleModelK : BootImage := { sampleModel with kernel := sampleKernel }

/-- The sample image bytes after kernel replacement and repacking. -/
def sampleImageK : List Nat :=
  bootMagic ++ writeLe32 0 ++ writeLe32 sampleKernel.length ++
    writeLe32 (serializeEntries sampleRamdisk).length ++ sampleKernel ++
    serializeEntries sampleRamdisk

/-- A sample LKM module blob. -/
def sampleModuleBytes : List Nat := [0xAA, 0xBB]

/-- A sample init replacement blob. -/
def sampleInitBytes : List Nat := [0xCC]

/-- The sample model after LKM injection. -/
def sampleModelL : BootImage :=
  { sampleModel with ramdisk :=
      [{ name := initName, mode := 420, data := sampleInitBytes },
       { name := initBackupName, mode := 420, data := [] },
       { name := lkmModuleName, mode := lkmModuleMode, data := sampleModuleBytes }] }

/-- The sample image bytes after LKM injection and repacking. -/
def sampleImageL : List Nat :=
  match repack sampleModelL with
  | .ok l => l
  | .error _ => []

/-- A buffer with a valid magic but an unrecognizable ramdisk payload. -/
def sampleBadPayload : List Nat :=
  bootMagic ++ writeLe32 0 ++ writeLe32 0 ++ writeLe32 1 ++ [0xFF]

/-- A sample environment for the CLI dispatcher: every operation succeeds
except the namespace switch and the boot-patch engine. -/
def sampleEnv : Env :=
  { rootShell := .ok ()
    onPostDataFs := .ok ()
    onServices := .ok ()
    onBootCompleted := .ok ()
    installEvent := .ok ()
    sepolicyLivePatch := fun _ => .ok ()
    sepolicyApplyFile := fun _ => .ok ()
    sepolicyCheckRule := fun _ => .ok ()
    profileGetSepolicy := fun _ => .ok ()
    profileSetSepolicy := fun _ _ => .ok ()
    profileGetTemplate := fun _ => .ok ()
    profileSetTemplate := fun _ _ => .ok ()
    profileDeleteTemplate := fun _ => .ok ()
    profileListTemplates := .ok ()
    switchMntNs := fun _ => .error "ns switch failed"
    unshareMntNs := .ok ()
    installModule := fun _ => .ok ()
    uninstallModule := fun _ => .ok ()
    enableModule := fun _ => .ok ()
    disableModule := fun _ => .ok ()
    listModules := .ok ()
    shrinkImages := .ok ()
    serveModule := fun _ _ => .ok ()
    setManager := fun _ => .ok ()
    getApkSignature := fun _ => .ok (0, "")
    grantRoot := .ok ()
    mountSystemlessly := .ok ()
    copySparseFile := fun _ _ => .ok ()
    punchHole := fun _ => .ok ()
    bootPatch := fun _ _ _ _ _ _ _ _ => .error "patch failed" }

theorem writeLe32_length (n : Nat) : (writeLe32 n).length = 4 := rfl

theorem writeLe32_valid (n : Nat) : bytesValid (writeLe32 n) = true := by
  simp [writeLe32, bytesValid, List.all_cons]
  omega

theorem readLe32_writeLe32 (n : Nat) (h : n < 4294967296) :
    readLe32 (n % 256) (n / 256 % 256) (n / 65536 % 256) (n / 16777216 % 256) = n := by
  unfold readLe32
  omega

theorem readLe32_lt (b0 b1 b2 b3 : Nat) (h0 : b0 < 256) (h1 : b1 < 256)
    (h2 : b2 < 256) (h3 : b3 < 256) : readLe32 b0 b1 b2 b3 < 4294967296 := by
  unfold readLe32
  omega

theorem writeLe32_readLe32 (b0 b1 b2 b3 : Nat) (h0 : b0 < 256) (h1 : b1 < 256)
    (h2 : b2 < 256) (h3 : b3 < 256) :
    writeLe32 (readLe32 b0 b1 b2 b3) = [b0, b1, b2, b3] := by
  unfold writeLe32 readLe32
  simp only [List.cons.injEq, and_true]
  refine ⟨?_, ?_, ?_, ?_⟩ <;> omega

theorem sniff_prefix_cpio (payload : List Nat)
    (h : Codec.signature .cpio <+: payload) : sniffCodec payload = some .cpio := by
  simp [sniffCodec, h]

theorem sniff_compress (c : Codec) (raw : List Nat)
    (hc : c = .cpio → Codec.signature .cpio <+: raw) :
    sniffCodec (compress c raw) = some c := by
  cases c with
  | cpio => exact sniff_prefix_cpio raw (hc rfl)
  | gzip => simp [compress, sniffCodec, Codec.signature, cpioMagic, List.prefix_append_right_inj]
  | lz4 => simp [compress, sniffCodec, Codec.signature, cpioMagic, List.prefix_append_right_inj]
  | zstd => simp [compress, sniffCodec, Codec.signature, cpioMagic, List.prefix_append_right_inj]

theorem decompress_compress (c : Codec) (raw : List Nat) :
    decompress c (compress c raw) = raw := by
  cases c <;> simp [decompress, compress, Codec.signature]

/-- Sniffing then recompressing the decompressed data reproduces the
original payload byte-for-byte. -/
theorem compress_decompress_of_sniff (c : Codec) (payload : List Nat)
    (h : sniffCodec payload = some c) :
    compress c (decompress c payload) = payload := by
  unfold sniffCodec at h
  split at h
  · cases h; simp [compress, decompress]
  · split at h
    · cases h
      rename_i hpre
      simp only [compress, decompress]
      obtain ⟨t, ht⟩ := ‹Codec.signature .gzip <+: payload›
      subst ht; simp [Codec.signature]
    · split at h
      · cases h
        simp only [compress, decompress]
        obtain ⟨t, ht⟩ := ‹Codec.signature .lz4 <+: payload›
        subst ht; simp [Codec.signature]
      · split at h
        · cases h
          simp only [compress, decompress]
          obtain ⟨t, ht⟩ := ‹Codec.signature .zstd <+: payload›
          subst ht; simp [Codec.signature]
        · exact absurd h (by simp)

theorem parseEntry_serializeEntry (e : RamdiskEntry) (tail : List Nat)
    (hb : entryBounded e) :
    parseEntry (serializeEntry e ++ tail) = some (e, tail) := by
  obtain ⟨hm, hn, hd⟩ := hb
  simp only [serializeEntry, cpioMagic, writeLe32, List.cons_append, List.nil_append,
    List.append_assoc, parseEntry]
  rw [if_pos]
  · simp only [readLe32_writeLe32 _ hn, readLe32_writeLe32 _ hm, readLe32_writeLe32 _ hd]
    rw [if_pos]
    · have h1 : (e.name ++ (e.data ++ tail)).take e.name.length = e.name := by
        simp [List.take_append]
      have h2 : (e.name ++ (e.data ++ tail)).drop e.name.length = e.data ++ tail := by
        simp [List.drop_append]
      have h3 : (e.name ++ (e.data ++ tail)).drop (e.name.length + e.data.length) = tail := by
        rw [← List.drop_drop, h2]
        simp [List.drop_append]
      simp [h1, h2, h3, List.take_append]
    · simp only [List.length_append]
      omega
  · have hb : ∀ n : Nat, n % 256 < 256 := fun n => Nat.mod_lt _ (by omega)
    exact ⟨by simp, hb _, hb _, hb _, hb _, hb _, hb _, hb _, hb _, hb _, hb _, hb _, hb _⟩

theorem parseEntry_inv (p : List Nat) (e : RamdiskEntry) (rest : List Nat)
    (h : parseEntry p = some (e, rest)) :
    serializeEntry e ++ rest = p ∧ entryBounded e := by
  match p with
  | m0 :: m1 :: m2 :: m3 :: m4 :: m5 :: a0 :: a1 :: a2 :: a3 ::
      b0 :: b1 :: b2 :: b3 :: c0 :: c1 :: c2 :: c3 :: body =>
    simp only [parseEntry] at h
    split at h
    · rename_i hg
      obtain ⟨hmagic, ha0, ha1, ha2, ha3, hb0, hb1, hb2, hb3, hc0, hc1, hc2, hc3⟩ := hg
      split at h
      · rename_i hlen
        injection h with h'
        injection h' with he hrest
        subst hrest
        have hname : (RamdiskEntry.mk (body.take (readLe32 a0 a1 a2 a3))
            (readLe32 b0 b1 b2 b3)
            ((body.drop (readLe32 a0 a1 a2 a3)).take (readLe32 c0 c1 c2 c3))) = e := he
        subst hname
        have hnl : (body.take (readLe32 a0 a1 a2 a3)).length = readLe32 a0 a1 a2 a3 := by
          rw [List.length_take]
          omega
        have hdl : ((body.drop (readLe32 a0 a1 a2 a3)).take
            (readLe32 c0 c1 c2 c3)).length = readLe32 c0 c1 c2 c3 := by
          rw [List.length_take, List.length_drop]
          omega
        constructor
        · simp only [serializeEntry, hnl, hdl,
            writeLe32_readLe32 a0 a1 a2 a3 ha0 ha1 ha2 ha3,
            writeLe32_readLe32 b0 b1 b2 b3 hb0 hb1 hb2 hb3,
            writeLe32_readLe32 c0 c1 c2 c3 hc0 hc1 hc2 hc3]
          have := hmagic
          simp only [cpioMagic] at this
          injection this with e0 this; injection this with e1 this
          injection this with e2 this; injection this with e3 this
          injection this with e4 this; injection this with e5 this
          subst e0; subst e1; subst e2; subst e3; subst e4; subst e5
          simp only [cpioMagic, List.cons_append, List.nil_append, List.append_assoc,
            List.cons.injEq, true_and]
          rw [← List.drop_drop, List.take_append_drop, List.take_append_drop]
        · unfold entryBounded
          refine ⟨readLe32_lt _ _ _ _ hb0 hb1 hb2 hb3, ?_, ?_⟩
          · show (body.take (readLe32 a0 a1 a2 a3)).length < 4294967296
            rw [hnl]
            exact readLe32_lt _ _ _ _ ha0 ha1 ha2 ha3
          · show ((body.drop (readLe32 a0 a1 a2 a3)).take (readLe32 c0 c1 c2 c3)).length
                < 4294967296
            rw [hdl]
            exact readLe32_lt _ _ _ _ hc0 hc1 hc2 hc3
      · exact absurd h (by simp)
    · exact absurd h (by simp)
  | [] => exact absurd h (by simp [parseEntry])
  | [m0] => exact absurd h (by simp [parseEntry])
  | [m0, m1] => exact absurd h (by simp [parseEntry])
  | [m0, m1, m2] => exact absurd h (by simp [parseEntry])
  | [m0, m1, m2, m3] => exact absurd h (by simp [parseEntry])
  | [m0, m1, m2, m3, m4] => exact absurd h (by simp [parseEntry])
  | [m0, m1, m2, m3, m4, m5] => exact absurd h (by simp [parseEntry])
  | [m0, m1, m2, m3, m4, m5, a0] => exact absurd h (by simp [parseEntry])
  | [m0, m1, m2, m3, m4, m5, a0, a1] => exact absurd h (by simp [parseEntry])
  | [m0, m1, m2, m3, m4, m5, a0, a1, a2] => exact absurd h (by simp [parseEntry])
  | [m0, m1, m2, m3, m4, m5, a0, a1, a2, a3] => exact absurd h (by simp [parseEntry])
  | [m0, m1, m2, m3, m4, m5, a0, a1, a2, a3, b0] => exact absurd h (by simp [parseEntry])
  | [m0, m1, m2, m3, m4, m5, a0, a1, a2, a3, b0, b1] => exact absurd h (by simp [parseEntry])
  | [m0, m1, m2, m3, m4, m5, a0, a1, a2, a3, b0, b1, b2] => exact absurd h (by simp [parseEntry])
  | [m0, m1, m2, m3, m4, m5, a0, a1, a2, a3, b0, b1, b2, b3] => exact absurd h (by simp [parseEntry])
  | [m0, m1, m2, m3, m4, m5, a0, a1, a2, a3, b0, b1, b2, b3, c0] => exact absurd h (by simp [parseEntry])
  | [m0, m1, m2, m3, m4, m5, a0, a1, a2, a3, b0, b1, b2, b3, c0, c1] => exact absurd h (by simp [parseEntry])
  | [m0, m1, m2, m3, m4, m5, a0, a1, a2, a3, b0, b1, b2, b3, c0, c1, c2] => exact absurd h (by simp [parseEntry])

theorem serializeEntry_length (e : RamdiskEntry) :
    (serializeEntry e).length = 18 + e.name.length + e.data.length := by
  simp [serializeEntry, cpioMagic, writeLe32]
  omega

theorem serializeEntry_ne_nil (e : RamdiskEntry) : serializeEntry e ≠ [] := by
  intro h
  have := congrArg List.length h
  rw [serializeEntry_length] at this
  simp at this

theorem parseEntriesAux_nil (fuel : Nat) : parseEntriesAux fuel [] = some [] := by
  cases fuel <;> rfl

theorem parseEntriesAux_succ (fuel : Nat) (p : List Nat) (hp : p ≠ []) :
    parseEntriesAux (fuel + 1) p =
      match parseEntry p with
      | none => none
      | some (e, rest) => (parseEntriesAux fuel rest).map (fun es => e :: es) := by
  cases p with
  | nil => exact absurd rfl hp
  | cons x xs => rfl

theorem parseEntriesAux_serializeEntries :
    ∀ (es : List RamdiskEntry) (fuel : Nat), (∀ e ∈ es, entryBounded e) →
      (serializeEntries es).length ≤ fuel →
      parseEntriesAux fuel (serializeEntries es) = some es
  | [], fuel, _, _ => parseEntriesAux_nil fuel
  | e :: es, fuel, hb, hf => by
    have hlen := serializeEntry_length e
    cases fuel with
    | zero =>
      exfalso
      simp only [serializeEntries, List.length_append, Nat.le_zero] at hf
      omega
    | succ f =>
      have hser : serializeEntries (e :: es) = serializeEntry e ++ serializeEntries es := rfl
      have hne : serializeEntries (e :: es) ≠ [] := by
        rw [hser]
        intro hcontra
        exact serializeEntry_ne_nil e (List.append_eq_nil.mp hcontra).1
      rw [parseEntriesAux_succ f _ hne, hser,
        parseEntry_serializeEntry e _ (hb e (by simp))]
      have hrec : parseEntriesAux f (serializeEntries es) = some es :=
        parseEntriesAux_serializeEntries es f (fun x hx => hb x (by simp [hx])) (by
          rw [hser] at hf
          simp only [List.length_append] at hf
          omega)
      simp [hrec]

theorem serializeEntries_parseEntriesAux :
    ∀ (fuel : Nat) (p : List Nat) (es : List RamdiskEntry),
      parseEntriesAux fuel p = some es →
      serializeEntries es = p ∧ ∀ e ∈ es, entryBounded e := by
  intro fuel
  induction fuel with
  | zero =>
    intro p es h
    cases p with
    | nil =>
      rw [parseEntriesAux_nil] at h
      injection h with h
      subst h
      exact ⟨rfl, by simp⟩
    | cons x xs => exact absurd h (by simp [parseEntriesAux])
  | succ f ih =>
    intro p es h
    cases p with
    | nil =>
      rw [parseEntriesAux_nil] at h
      injection h with h
      subst h
      exact ⟨rfl, by simp⟩
    | cons x xs =>
      rw [parseEntriesAux_succ f _ (by simp)] at h
      cases hpe : parseEntry (x :: xs) with
      | none => rw [hpe] at h; exact absurd h (by simp)
      | some er =>
        obtain ⟨e, rest⟩ := er
        rw [hpe] at h
        simp only [Option.map_eq_some'] at h
        obtain ⟨es', hes', heq⟩ := h
        subst heq
        obtain ⟨hser, hbnd⟩ := ih rest es' hes'
        obtain ⟨hinv, hbe⟩ := parseEntry_inv _ e rest hpe
        constructor
        · show serializeEntry e ++ serializeEntries es' = x :: xs
          rw [hser, hinv]
        · intro x hx
          rcases List.mem_cons.mp hx with h | h
          · exact h ▸ hbe
          · exact hbnd x h

/-- Entries parsed from a payload serialize back to it verbatim. -/
theorem serializeEntries_parseEntries (p : List Nat) (es : List RamdiskEntry)
    (h : parseEntries p = some es) :
    serializeEntries es = p ∧ ∀ e ∈ es, entryBounded e :=
  serializeEntries_parseEntriesAux p.length p es h

/-- Serializing bounded entries parses back to the same entries. -/
theorem parseEntries_serializeEntries (es : List RamdiskEntry)
    (hb : ∀ e ∈ es, entryBounded e) :
    parseEntries (serializeEntries es) = some es :=
  parseEntriesAux_serializeEntries es _ hb (Nat.le_refl _)

theorem serializeEntries_cons_prefix (e : RamdiskEntry) (es : List RamdiskEntry) :
    cpioMagic <+: serializeEntries (e :: es) := by
  show cpioMagic <+: serializeEntry e ++ serializeEntries es
  unfold serializeEntry
  simp only [List.append_assoc]
  exact ⟨_, rfl⟩

theorem bytesValid_take (l : List Nat) (n : Nat) (h : bytesValid l = true) :
    bytesValid (l.take n) = true := by
  simp only [bytesValid, List.all_eq_true] at h ⊢
  exact fun b hb => h b (List.mem_of_mem_take hb)

theorem bytesValid_drop (l : List Nat) (n : Nat) (h : bytesValid l = true) :
    bytesValid (l.drop n) = true := by
  simp only [bytesValid, List.all_eq_true] at h ⊢
  exact fun b hb => h b (List.mem_of_mem_drop hb)

theorem writeLe32_le32of (l : List Nat) (h4 : 4 ≤ l.length)
    (hv : bytesValid l = true) :
    writeLe32 (le32of l) = l.take 4 ∧ le32of l < 4294967296 := by
  match l with
  | b0 :: b1 :: b2 :: b3 :: rest =>
    simp only [bytesValid, List.all_cons, Bool.and_eq_true, decide_eq_true_eq] at hv
    obtain ⟨h0, h1, h2, h3, _⟩ := hv
    refine ⟨?_, readLe32_lt b0 b1 b2 b3 h0 h1 h2 h3⟩
    show writeLe32 (readLe32 b0 b1 b2 b3) = [b0, b1, b2, b3]
    exact writeLe32_readLe32 b0 b1 b2 b3 h0 h1 h2 h3
  | [] => simp at h4
  | [b0] => simp at h4
  | [b0, b1] => simp at h4
  | [b0, b1, b2] => simp at h4

theorem drop_bootMagic (rest : List Nat) (n : Nat) :
    (bootMagic ++ rest).drop (8 + n) = rest.drop n := by
  rw [← List.drop_drop]
  rfl

/-- Repacking the model parsed from a structurally valid image reproduces
the original byte stream exactly. -/
theorem repack_unpack_eq (img : List Nat) (m : BootImage)
    (hval : validImage img) (h : unpack img = .ok m) : repack m = .ok img := by
  obtain ⟨hbytes, hlen⟩ := hval
  have hpre : bootMagic <+: img := by
    by_contra hpre
    simp only [unpack, if_neg hpre] at h
    exact absurd h (by simp)
  obtain ⟨rest, hrest⟩ := hpre
  subst hrest
  have hd8 : (bootMagic ++ rest).drop 8 = rest := by
    have := drop_bootMagic rest 0
    simpa using this
  have hd12 : (bootMagic ++ rest).drop 12 = rest.drop 4 := by
    rw [show (12 : Nat) = 8 + 4 from rfl, drop_bootMagic]
  have hd16 : (bootMagic ++ rest).drop 16 = rest.drop 8 := by
    rw [show (16 : Nat) = 8 + 8 from rfl, drop_bootMagic]
  have hd20 : (bootMagic ++ rest).drop 20 = rest.drop 12 := by
    rw [show (20 : Nat) = 8 + 12 from rfl, drop_bootMagic]
  have hrl : rest.length = 12 + le32of (rest.drop 4) + le32of (rest.drop 8) := by
    rw [hd12, hd16] at hlen
    simp only [List.length_append] at hlen
    have h8 : bootMagic.length = 8 := rfl
    omega
  have hvrest : bytesValid rest = true := by
    rw [← hd8]
    exact bytesValid_drop _ 8 hbytes
  obtain ⟨hw0, hlt0⟩ := writeLe32_le32of rest (by omega) hvrest
  obtain ⟨hw4, hlt4⟩ := writeLe32_le32of (rest.drop 4) (by rw [List.length_drop]; omega)
    (bytesValid_drop _ 4 hvrest)
  obtain ⟨hw8, hlt8⟩ := writeLe32_le32of (rest.drop 8) (by rw [List.length_drop]; omega)
    (bytesValid_drop _ 8 hvrest)
  simp only [unpack] at h
  rw [if_pos ⟨rest, rfl⟩] at h
  split at h
  · exact absurd h (by simp)
  · rename_i c hsn
    split at h
    · exact absurd h (by simp)
    · rename_i es hpe
      injection h with h
      subst h
      have hser : serializeEntries es =
          decompress c (ramdiskPayload (bootMagic ++ rest)) :=
        (serializeEntries_parseEntries _ es hpe).1
      have hcomp : compress c (serializeEntries es) =
          ramdiskPayload (bootMagic ++ rest) := by
        rw [hser]
        exact compress_decompress_of_sniff c _ hsn
      have hpay : ramdiskPayload (bootMagic ++ rest) =
          ((rest.drop 12).drop (le32of (rest.drop 4))).take (le32of (rest.drop 8)) := by
        unfold ramdiskPayload
        rw [hd20, hd12, hd16]
      have hbl : (rest.drop 12).length = le32of (rest.drop 4) + le32of (rest.drop 8) := by
        rw [List.length_drop]
        omega
      have hkl : ((bootMagic ++ rest).drop 20).take (le32of ((bootMagic ++ rest).drop 12)) =
          (rest.drop 12).take (le32of (rest.drop 4)) := by
        rw [hd20, hd12]
      have hklen : ((rest.drop 12).take (le32of (rest.drop 4))).length =
          le32of (rest.drop 4) := by
        rw [List.length_take]
        omega
      have hcomp_eq : ramdiskPayload (bootMagic ++ rest) =
          (rest.drop 12).drop (le32of (rest.drop 4)) := by
        rw [hpay]
        have : ((rest.drop 12).drop (le32of (rest.drop 4))).length =
            le32of (rest.drop 8) := by
          rw [List.length_drop]
          omega
        rw [← this, List.take_length]
      have hclen : (ramdiskPayload (bootMagic ++ rest)).length = le32of (rest.drop 8) := by
        rw [hcomp_eq, List.length_drop]
        omega
      simp only [repack, hd8, hd12, hd16, hd20, hcomp]
      rw [if_pos]
      · congr 1
        rw [hklen, hclen, hw0, hw4, hw8, hcomp_eq]
        simp only [List.append_assoc]
        congr 1
        rw [List.take_append_drop]
        have hdd8 : List.drop 4 (List.drop 8 rest) = List.drop 12 rest := by
          rw [List.drop_drop]
        have hdd4 : List.drop 4 (List.drop 4 rest) = List.drop 8 rest := by
          rw [List.drop_drop]
        rw [← hdd8, List.take_append_drop, ← hdd4, List.take_append_drop]
        exact List.take_append_drop 4 rest
      · constructor
        · rw [hklen]
          exact hlt4
        · rw [hclen]
          exact hlt8

/-- Properties guaranteed for any model produced by the Unpacker from a
structurally valid image. -/
theorem unpack_ok_props (img : List Nat) (m : BootImage)
    (hval : validImage img) (h : unpack img = .ok m) :
    m.headerVersion < 4294967296 ∧ (m.codec = .cpio → m.ramdisk ≠ []) ∧
      ∀ e ∈ m.ramdisk, entryBounded e := by
  obtain ⟨hbytes, hlen⟩ := hval
  have hpre : bootMagic <+: img := by
    by_contra hpre
    simp only [unpack, if_neg hpre] at h
    exact absurd h (by simp)
  obtain ⟨rest, hrest⟩ := hpre
  subst hrest
  have hd8 : (bootMagic ++ rest).drop 8 = rest := by
    have := drop_bootMagic rest 0
    simpa using this
  simp only [unpack] at h
  rw [if_pos ⟨rest, rfl⟩] at h
  split at h
  · exact absurd h (by simp)
  · rename_i c hsn
    split at h
    · exact absurd h (by simp)
    · rename_i es hpe
      injection h with h
      subst h
      obtain ⟨hser, hbnd⟩ := serializeEntries_parseEntries _ es hpe
      refine ⟨?_, ?_, hbnd⟩
      · show le32of ((bootMagic ++ rest).drop 8) < 4294967296
        rw [hd8]
        have hvrest : bytesValid rest = true := by
          rw [← hd8]
          exact bytesValid_drop _ 8 hbytes
        have hrl : 4 ≤ rest.length := by
          simp only [List.length_append] at hlen
          have h8 : bootMagic.length = 8 := rfl
          omega
        exact (writeLe32_le32of rest hrl hvrest).2
      · intro hcpio hnil
        have hc : c = Codec.cpio := hcpio
        have hes : es = [] := hnil
        subst hc
        subst hes
        have hdec : decompress .cpio (ramdiskPayload (bootMagic ++ rest)) =
            ramdiskPayload (bootMagic ++ rest) := rfl
        rw [hdec] at hser
        have hcm : cpioMagic <+: ramdiskPayload (bootMagic ++ rest) := by
          simp only [sniffCodec] at hsn
          split at hsn
          · assumption
          · split at hsn
            · exact absurd hsn (by simp)
            · split at hsn
              · exact absurd hsn (by simp)
              · split at hsn
                · exact absurd hsn (by simp)
                · exact absurd hsn (by simp)
        obtain ⟨t, ht⟩ := hcm
        rw [← hser] at ht
        simp only [serializeEntries] at ht
        have hlen2 := congrArg List.length ht
        simp [cpioMagic] at hlen2

/-- Unpacking a repacked well-formed model recovers the model exactly. -/
theorem unpack_repack_eq (m : BootImage) (img : List Nat)
    (hhv : m.headerVersion < 4294967296)
    (hcp : m.codec = .cpio → m.ramdisk ≠ [])
    (hb : ∀ e ∈ m.ramdisk, entryBounded e)
    (h : repack m = .ok img) : unpack img = .ok m := by
  simp only [repack] at h
  split at h
  · rename_i hfit
    obtain ⟨hkfit, hcfit⟩ := hfit
    injection h with h
    subst h
    set comp := compress m.codec (serializeEntries m.ramdisk) with hcompdef
    set rest := writeLe32 m.headerVersion ++ (writeLe32 m.kernel.length ++
      (writeLe32 comp.length ++ (m.kernel ++ comp))) with hrestdef
    have himg : bootMagic ++ writeLe32 m.headerVersion ++ writeLe32 m.kernel.length ++
        writeLe32 comp.length ++ m.kernel ++ comp = bootMagic ++ rest := by
      rw [hrestdef]
      simp only [List.append_assoc]
    rw [himg]
    have hd8 : (bootMagic ++ rest).drop 8 = rest := by
      have := drop_bootMagic rest 0
      simpa using this
    have hd12 : (bootMagic ++ rest).drop 12 = rest.drop 4 := by
      rw [show (12 : Nat) = 8 + 4 from rfl, drop_bootMagic]
    have hd16 : (bootMagic ++ rest).drop 16 = rest.drop 8 := by
      rw [show (16 : Nat) = 8 + 8 from rfl, drop_bootMagic]
    have hd20 : (bootMagic ++ rest).drop 20 = rest.drop 12 := by
      rw [show (20 : Nat) = 8 + 12 from rfl, drop_bootMagic]
    have hr4 : rest.drop 4 = writeLe32 m.kernel.length ++
        (writeLe32 comp.length ++ (m.kernel ++ comp)) := by
      rw [hrestdef, show (4 : Nat) = (writeLe32 m.headerVersion).length from rfl,
        List.drop_left]
    have hr8 : rest.drop 8 = writeLe32 comp.length ++ (m.kernel ++ comp) := by
      have h44 : rest.drop 8 = (rest.drop 4).drop 4 := by rw [List.drop_drop]
      rw [h44, hr4, show (4 : Nat) = (writeLe32 m.kernel.length).length from rfl,
        List.drop_left]
    have hr12 : rest.drop 12 = m.kernel ++ comp := by
      have h84 : rest.drop 12 = (rest.drop 8).drop 4 := by rw [List.drop_drop]
      rw [h84, hr8, show (4 : Nat) = (writeLe32 comp.length).length from rfl,
        List.drop_left]
    have hle0 : le32of rest = m.headerVersion := by
      rw [hrestdef]
      simp only [writeLe32, List.append_assoc, List.cons_append, List.nil_append]
      show readLe32 (m.headerVersion % 256) (m.headerVersion / 256 % 256)
        (m.headerVersion / 65536 % 256) (m.headerVersion / 16777216 % 256) = m.headerVersion
      exact readLe32_writeLe32 _ hhv
    have hle4 : le32of (rest.drop 4) = m.kernel.length := by
      rw [hr4]
      simp only [writeLe32, List.append_assoc, List.cons_append, List.nil_append]
      show readLe32 (m.kernel.length % 256) (m.kernel.length / 256 % 256)
        (m.kernel.length / 65536 % 256) (m.kernel.length / 16777216 % 256) = m.kernel.length
      exact readLe32_writeLe32 _ hkfit
    have hle8 : le32of (rest.drop 8) = comp.length := by
      rw [hr8]
      simp only [writeLe32, List.append_assoc, List.cons_append, List.nil_append]
      show readLe32 (comp.length % 256) (comp.length / 256 % 256)
        (comp.length / 65536 % 256) (comp.length / 16777216 % 256) = comp.length
      exact readLe32_writeLe32 _ hcfit
    have hpay : ramdiskPayload (bootMagic ++ rest) = comp := by
      unfold ramdiskPayload
      rw [hd20, hd12, hd16, hr12, hle4, hle8, List.drop_left]
      exact List.take_length comp
    have hkern : ((bootMagic ++ rest).drop 20).take
        (le32of ((bootMagic ++ rest).drop 12)) = m.kernel := by
      rw [hd20, hd12, hr12, hle4]
      exact List.take_left m.kernel comp
    have hsn : sniffCodec (ramdiskPayload (bootMagic ++ rest)) = some m.codec := by
      rw [hpay, hcompdef]
      apply sniff_compress
      intro hc
      cases hes : m.ramdisk with
      | nil => exact absurd hes (hcp hc)
      | cons e es2 => exact serializeEntries_cons_prefix e es2
    have hpe : parseEntries (decompress m.codec (ramdiskPayload (bootMagic ++ rest))) =
        some m.ramdisk := by
      rw [hpay, hcompdef, decompress_compress]
      exact parseEntries_serializeEntries m.ramdisk hb
    simp only [unpack]
    rw [if_pos ⟨rest, rfl⟩]
    simp only [hsn, hpe]
    rw [hd8, hle0, hkern]
  · exact absurd h (by simp)

theorem writeBytes_spec (img : List Nat) : ∀ (c : Nat) (w : List Nat),
    writeBytes img ⟨c, w⟩ =
      (⟨c, w ++ img.take (min img.length (c - w.length))⟩,
        min img.length (c - w.length)) := by
  induction img with
  | nil =>
    intro c w
    simp [writeBytes]
  | cons b rest ih =>
    intro c w
    by_cases hw : w.length < c
    · have hstep : writeBytes (b :: rest) ⟨c, w⟩ =
          ((writeBytes rest ⟨c, w ++ [b]⟩).1, (writeBytes rest ⟨c, w ++ [b]⟩).2 + 1) := by
        simp [writeBytes, hw]
      rw [hstep, ih c (w ++ [b])]
      have hlb : (w ++ [b]).length = w.length + 1 := by simp
      rw [hlb]
      have hmin : min rest.length (c - (w.length + 1)) + 1 =
          min (rest.length + 1) (c - w.length) := by omega
      have hlen : (b :: rest).length = rest.length + 1 := by simp
      rw [hlen, ← hmin]
      have htake : (b :: rest).take (min rest.length (c - (w.length + 1)) + 1) =
          b :: rest.take (min rest.length (c - (w.length + 1))) := rfl
      rw [htake]
      simp [List.append_assoc]
    · have hc0 : c - w.length = 0 := by omega
      simp [writeBytes, hw, hc0]

/-!
## Helper lemmas for the patch theorems
-/

theorem data_le_serializeEntries (e : RamdiskEntry) :
    ∀ es : List RamdiskEntry, e ∈ es → e.data.length ≤ (serializeEntries es).length := by
  intro es
  induction es with
  | nil => intro h; cases h
  | cons x xs ih =>
    intro h
    have hlen : serializeEntries (x :: xs) = serializeEntry x ++ serializeEntries xs := rfl
    rw [hlen, List.length_append, serializeEntry_length]
    rcases List.mem_cons.mp h with h | h
    · subst h
      omega
    · have := ih h
      omega

theorem serialize_le_compress (c : Codec) (raw : List Nat) :
    raw.length ≤ (compress c raw).length := by
  cases c <;> simp [compress, Codec.signature, cpioMagic] <;> omega

theorem repack_ok_bounds (m : BootImage) (img : List Nat) (h : repack m = .ok img) :
    m.kernel.length < 4294967296 ∧
      (compress m.codec (serializeEntries m.ramdisk)).length < 4294967296 := by
  simp only [repack] at h
  split at h
  · rename_i hfit
    exact hfit
  · exact absurd h (by simp)

theorem filter_map_replaceInit (initB : List Nat) (es : List RamdiskEntry) :
    (es.map (replaceInitData initB)).filter (fun e => decide (e.name ≠ initName)) =
      es.filter (fun e => decide (e.name ≠ initName)) := by
  induction es with
  | nil => rfl
  | cons e es ih =>
    by_cases he : e.name = initName
    · have h1 : replaceInitData initB e = { e with data := initB } := by
        simp [replaceInitData, he]
      have hpA : decide (({ e with data := initB } : RamdiskEntry).name ≠ initName) = false := by
        simp [he]
      have hpB : decide (e.name ≠ initName) = false := by
        simp [he]
      simp only [List.map_cons, List.filter_cons, h1, hpA, hpB, Bool.false_eq_true,
        if_false]
      exact ih
    · have h1 : replaceInitData initB e = e := by
        simp [replaceInitData, he]
      have hpB : decide (e.name ≠ initName) = true := by
        simp [he]
      simp only [List.map_cons, List.filter_cons, h1, hpB, if_true]
      rw [ih]

/-!
## Claim theorems
-/

/-- C1: For every valid boot image, running the Repacker on the Image Model
produced by the Unpacker, with no patch applied, yields a byte stream
identical to the original image (round-trip identity). -/
theorem c1_round_trip_identity (img : List Nat) (m : BootImage)
    (hval : validImage img) (h : unpack img = .ok m) :
    repack m = .ok img :=
  repack_unpack_eq img m hval h

theorem c1_round_trip_identity_witness :
    repack sampleModel = .ok sampleImage :=
  c1_round_trip_identity sampleImage sampleModel ⟨rfl, rfl⟩ rfl

/-- C2: For every valid boot image and every caller-supplied kernel blob,
kernel-replacement patching followed by repacking changes only the kernel
component: the repacked image parses back to the original model with only
the kernel swapped, so the ramdisk recovered from the repacked image equals
the original ramdisk exactly. -/
theorem c2_kernel_replacement_frame (img : List Nat) (m : BootImage)
    (k : List Nat) (m2 : BootImage) (img2 : List Nat) (m3 : BootImage)
    (hval : validImage img) (hu : unpack img = .ok m)
    (hp : patchKernel m k = .ok m2)
    (hr : repack m2 = .ok img2)
    (hu2 : unpack img2 = .ok m3) :
    m3 = { m with kernel := k } := by
  have hm2 : m2 = { m with kernel := k } := by
    simp only [patchKernel] at hp
    split at hp
    · exact absurd hp (by simp)
    · injection hp with hp
      exact hp.symm
  subst hm2
  obtain ⟨hhv, hcp, hb⟩ := unpack_ok_props img m hval hu
  have hru : unpack img2 = .ok { m with kernel := k } :=
    unpack_repack_eq { m with kernel := k } img2 hhv hcp hb hr
  rw [hru] at hu2
  injection hu2 with hm3
  exact hm3.symm

theorem c2_kernel_replacement_frame_witness :
    sampleModelK = { sampleModel with kernel := sampleKernel } :=
  c2_kernel_replacement_frame sampleImage sampleModel sampleKernel sampleModelK
    sampleImageK sampleModelK ⟨rfl, rfl⟩ rfl rfl rfl rfl

/-- C3: For every valid boot image whose ramdisk contains an init entry,
LKM injection followed by repacking preserves every ramdisk entry except
the init entry in the same order with identical content, adds the module
file as a new entry, and keeps the original init content recoverable under
its renamed entry: the non-init entries of the reparsed ramdisk are exactly
the original non-init entries, in order, followed by the renamed backup of
the original init content and the new module entry. -/
theorem c3_lkm_entry_preservation (img : List Nat) (m : BootImage)
    (origInit : RamdiskEntry) (modB initB : List Nat)
    (m2 : BootImage) (img2 : List Nat) (m3 : BootImage)
    (hval : validImage img) (hu : unpack img = .ok m)
    (hfind : m.ramdisk.find? (fun e => decide (e.name = initName)) = some origInit)
    (hp : patchLkm m modB initB = .ok m2)
    (hr : repack m2 = .ok img2)
    (hu2 : unpack img2 = .ok m3) :
    m3.ramdisk.filter (fun e => decide (e.name ≠ initName)) =
      m.ramdisk.filter (fun e => decide (e.name ≠ initName)) ++
        [{ name := initBackupName, mode := origInit.mode, data := origInit.data },
         { name := lkmModuleName, mode := lkmModuleMode, data := modB }] := by
  have hm2 : m2 = { m with ramdisk :=
      (m.ramdisk.map (replaceInitData initB) ++
        [{ name := initBackupName, mode := origInit.mode, data := origInit.data },
         { name := lkmModuleName, mode := lkmModuleMode, data := modB }]) } := by
    simp only [patchLkm, hfind] at hp
    injection hp with hp
    exact hp.symm
  obtain ⟨hhv, _, hb⟩ := unpack_ok_props img m hval hu
  have hbounds := repack_ok_bounds m2 img2 hr
  have horigmem : origInit ∈ m.ramdisk := List.mem_of_find?_eq_some hfind
  have horigname : origInit.name = initName := by
    have h1 := List.find?_some hfind
    simp only [decide_eq_true_eq] at h1
    exact h1
  have horigbnd := hb origInit horigmem
  have hmodmem : ({ name := lkmModuleName, mode := lkmModuleMode, data := modB } :
      RamdiskEntry) ∈ m2.ramdisk := by
    rw [hm2]
    simp
  have hmodlen : modB.length < 4294967296 := by
    have h1 := data_le_serializeEntries _ _ hmodmem
    have h2 := serialize_le_compress m2.codec (serializeEntries m2.ramdisk)
    have h3 := hbounds.2
    simp only at h1
    omega
  have hinitmem : replaceInitData initB origInit ∈ m2.ramdisk := by
    rw [hm2]
    simp only [List.mem_append, List.mem_map]
    exact Or.inl ⟨origInit, horigmem, rfl⟩
  have hinitdata : (replaceInitData initB origInit).data = initB := by
    simp [replaceInitData, horigname]
  have hinitlen : initB.length < 4294967296 := by
    have h1 := data_le_serializeEntries _ _ hinitmem
    rw [hinitdata] at h1
    have h2 := serialize_le_compress m2.codec (serializeEntries m2.ramdisk)
    have h3 := hbounds.2
    omega
  have hball : ∀ e ∈ m2.ramdisk, entryBounded e := by
    rw [hm2]
    intro e he
    simp only [List.mem_append, List.mem_map, List.mem_cons,
      List.not_mem_nil, or_false] at he
    rcases he with ⟨e0, he0, hrepl⟩ | he | he
    · subst hrepl
      have hbe0 := hb e0 he0
      by_cases hn : e0.name = initName
      · have : replaceInitData initB e0 = { e0 with data := initB } := by
          simp [replaceInitData, hn]
        rw [this]
        exact ⟨hbe0.1, hbe0.2.1, hinitlen⟩
      · have : replaceInitData initB e0 = e0 := by
          simp [replaceInitData, hn]
        rw [this]
        exact hbe0
    · subst he
      refine ⟨horigbnd.1, ?_, horigbnd.2.2⟩
      show initBackupName.length < 4294967296
      decide
    · subst he
      refine ⟨?_, ?_, hmodlen⟩
      · show lkmModuleMode < 4294967296
        decide
      · show lkmModuleName.length < 4294967296
        decide
  have hhv2 : m2.headerVersion < 4294967296 := by
    rw [hm2]
    exact hhv
  have hcp2 : m2.codec = .cpio → m2.ramdisk ≠ [] := by
    intro _
    rw [hm2]
    simp
  have hru : unpack img2 = .ok m2 := unpack_repack_eq m2 img2 hhv2 hcp2 hball hr
  rw [hru] at hu2
  injection hu2 with hm3
  rw [← hm3, hm2]
  show (m.ramdisk.map (replaceInitData initB) ++ _).filter _ = _
  rw [List.filter_append, filter_map_replaceInit]
  congr 1

theorem c3_lkm_entry_preservation_witness :
    sampleModelL.ramdisk.filter (fun e => decide (e.name ≠ initName)) =
      sampleModel.ramdisk.filter (fun e => decide (e.name ≠ initName)) ++
        [{ name := initBackupName, mode := sampleEntry.mode, data := sampleEntry.data },
         { name := lkmModuleName, mode := lkmModuleMode, data := sampleModuleBytes }] :=
  c3_lkm_entry_preservation sampleImage sampleModel sampleEntry sampleModuleBytes
    sampleInitBytes sampleModelL sampleImageL sampleModelL ⟨rfl, rfl⟩ rfl rfl rfl rfl rfl

/-- C4: For every input buffer, the Unpacker fails with `InvalidFormat` if
and only if the magic signature at the fixed offset is absent, and fails
with `UnsupportedCompression` when the ramdisk payload's leading bytes
match none of the known codec signatures. -/
theorem c4_format_rejection (img : List Nat) :
    (unpack img = .error .invalidFormat ↔ ¬ (bootMagic <+: img)) ∧
    (bootMagic <+: img → sniffCodec (ramdiskPayload img) = none →
      unpack img = .error .unsupportedCompression) := by
  constructor
  · constructor
    · intro h
      by_contra hpre
      simp only [unpack, if_pos hpre] at h
      split at h
      · simp at h
      · split at h
        · simp at h
        · simp at h
    · intro hpre
      simp only [unpack, if_neg hpre]
  · intro hpre hsn
    simp only [unpack, if_pos hpre, hsn]

theorem c4_format_rejection_witness :
    unpack sampleBadPayload = .error .unsupportedCompression ∧
    unpack [0] = .error .invalidFormat :=
  ⟨(c4_format_rejection sampleBadPayload).2 (by decide) (by decide),
    (c4_format_rejection [0]).1.mpr (by decide)⟩

/-- C5: For every repacked image and every partition sink, flashing writes
exactly the image's length in bytes and no more when the sink has capacity,
and fails with `FlashIncomplete` on any short write — in particular
whenever the image exceeds the sink's capacity — with no automatic retry:
the sink after a failed flash holds the single truncated write pass. -/
theorem c5_flash_length_invariant (img : List Nat) (c : Nat) :
    (img.length ≤ c → flash img ⟨c, []⟩ = (⟨c, img⟩, .ok ())) ∧
    (c < img.length →
      flash img ⟨c, []⟩ = (⟨c, img.take c⟩, .error .flashIncomplete)) := by
  have hw := writeBytes_spec img c []
  simp only [List.length_nil, Nat.sub_zero, List.nil_append] at hw
  constructor
  · intro hle
    have hmin : min img.length c = img.length := by omega
    simp only [flash, hw, hmin]
    simp [List.take_length]
  · intro hlt
    have hmin : min img.length c = c := by omega
    simp only [flash, hw, hmin]
    rw [if_neg (by omega)]

theorem c5_flash_length_invariant_witness :
    flash [1, 2, 3] ⟨3, []⟩ = (⟨3, [1, 2, 3]⟩, .ok ()) ∧
    flash [1, 2, 3] ⟨2, []⟩ = (⟨2, [1, 2]⟩, .error .flashIncomplete) :=
  ⟨(c5_flash_length_invariant [1, 2, 3] 3).1 (by decide),
    (c5_flash_length_invariant [1, 2, 3] 2).2 (by decide)⟩

/-- C6: The LKM module path and the init replacement path are either both
present or both absent: a plan supplying one without the other is rejected
at the argument boundary (clap's declared `requires` constraints), before
the engine runs and before any I/O occurs — the recorded operation trace is
empty. -/
theorem c6_lkm_init_paired (env : Env) (argv0 : String)
    (b k mdl i : Option String) (ota fl : Bool) (out mb : Option String)
    (hsu : ¬ (argv0 = "su" ∨ argv0 = "/system/bin/su"))
    (hmis : mdl.isSome ≠ i.isSome) :
    run env argv0 (.ok (.bootPatch b k mdl i ota fl out mb)) = ([], .usageError) := by
  have hv : argsValid (.bootPatch b k mdl i ota fl out mb) = false := by
    unfold argsValid
    rw [beq_eq_false_iff_ne]
    exact hmis
  simp only [run, if_neg hsu, hv, Bool.false_eq_true, if_false]

theorem c6_lkm_init_paired_witness :
    run sampleEnv "ksud" (.ok (.bootPatch none none (some "a.ko") none
      false false none none)) = ([], .usageError) :=
  c6_lkm_init_paired sampleEnv "ksud" none none (some "a.ko") none false false
    none none (by decide) (by decide)

/-- C7: The patch engine is invoked as a single blocking call taking the
plan's fields and returning a Result, and for every invocation whose
dispatched operation returns an error, the CLI logs that error and returns
it to the caller rather than swallowing it. -/
theorem c7_error_surfaced (env : Env) (argv0 : String) (cmd : Commands)
    (tr : List Op) (e : String)
    (hsu : ¬ (argv0 = "su" ∨ argv0 = "/system/bin/su"))
    (hv : argsValid cmd = true)
    (hd : dispatch env cmd = (tr, .result (.error e))) :
    run env argv0 (.ok cmd) = (tr ++ [.logError e], .result (.error e)) ∧
    ∀ b k mdl i ota fl out mb,
      dispatch env (.bootPatch b k mdl i ota fl out mb) =
        ([.invokePatch b k mdl i ota fl out mb],
          .result (env.bootPatch b k mdl i ota fl out mb)) := by
  constructor
  · simp only [run, if_neg hsu, hv, if_true, hd]
  · intro b k mdl i ota fl out mb
    rfl

theorem c7_error_surfaced_witness :
    run sampleEnv "ksud" (.ok (.bootPatch none none none none false false none none)) =
      ([.invokePatch none none none none false false none none,
        .logError "patch failed"], .result (.error "patch failed")) ∧
    ∀ b k mdl i ota fl out mb,
      dispatch sampleEnv (.bootPatch b k mdl i ota fl out mb) =
        ([.invokePatch b k mdl i ota fl out mb],
          .result (sampleEnv.bootPatch b k mdl i ota fl out mb)) :=
  c7_error_surfaced sampleEnv "ksud"
    (.bootPatch none none none none false false none none)
    [.invokePatch none none none none false false none none] "patch failed"
    (by decide) rfl rfl

/-- C8: For every invocation in which argv[0] equals "su" or
"/system/bin/su", run dispatches directly to the root shell and returns its
result, without parsing any command-line subcommand or arguments: the
result is the root shell's, whatever the parse outcome. -/
theorem c8_su_shortcut (env : Env) (parsed : Except Unit Commands) :
    run env "su" parsed = ([.rootShell], .result env.rootShell) ∧
    run env "/system/bin/su" parsed = ([.rootShell], .result env.rootShell) := by
  constructor <;> simp [run]

/-- C9: For every Module subcommand (on linux/android targets), run first
switches the mount namespace to PID 1's and unshares the mount namespace;
if either namespace operation fails, run returns that error and the
requested module operation is never invoked (it is absent from the recorded
trace); when both succeed the module operation runs after them. -/
theorem c9_module_ns_setup (env : Env) (c : ModuleCmd) (argv0 : String)
    (hsu : ¬ (argv0 = "su" ∨ argv0 = "/system/bin/su")) :
    (∀ e, env.switchMntNs 1 = .error e →
      run env argv0 (.ok (.module c)) =
        ([.switchMntNs 1, .logError e], .result (.error e))) ∧
    (∀ e, env.switchMntNs 1 = .ok () → env.unshareMntNs = .error e →
      run env argv0 (.ok (.module c)) =
        ([.switchMntNs 1, .unshareMntNs, .logError e], .result (.error e))) ∧
    (env.switchMntNs 1 = .ok () → env.unshareMntNs = .ok () →
      dispatch env (.module c) =
        ([.switchMntNs 1, .unshareMntNs, (runModule env c).1],
          .result (runModule env c).2)) := by
  refine ⟨?_, ?_, ?_⟩
  · intro e he
    simp [run, if_neg hsu, argsValid, dispatch, he]
  · intro e hok he
    simp [run, if_neg hsu, argsValid, dispatch, hok, he]
  · intro hok hok2
    simp [dispatch, hok, hok2]

theorem c9_module_ns_setup_witness :
    run sampleEnv "ksud" (.ok (.module .list)) =
      ([.switchMntNs 1, .logError "ns switch failed"],
        .result (.error "ns switch failed")) :=
  (c9_module_ns_setup sampleEnv .list "ksud" (by decide)).1 "ns switch failed" rfl

/-- C10: Invoking the Debug Test subcommand panics (`todo!()`) instead of
returning a Result: the dispatch outcome is the panic outcome, never a
returned Result, so the dispatch function is not total on that input. -/
theorem c10_debug_test_panics (env : Env) (argv0 : String)
    (hsu : ¬ (argv0 = "su" ∨ argv0 = "/system/bin/su")) :
    dispatch env (.debug .test) = ([], .panic) ∧
    run env argv0 (.ok (.debug .test)) = ([], .panic) ∧
    ∀ r : KResult, (dispatch env (.debug .test)).2 ≠ .result r := by
  refine ⟨rfl, ?_, ?_⟩
  · simp [run, if_neg hsu, argsValid, dispatch]
  · intro r h
    simp [dispatch] at h

theorem c10_debug_test_panics_witness :
    dispatch sampleEnv (.debug .test) = ([], .panic) ∧
    run sampleEnv "ksud" (.ok (.debug .test)) = ([], .panic) ∧
    ∀ r : KResult, (dispatch sampleEnv (.debug .test)).2 ≠ .result r :=
  c10_debug_test_panics sampleEnv "ksud" (by decide)

end Ksud
